import Mathlib

/-
  Verification of the streaming segmentation and pipeline-orchestration layer
  of the Speech-to-TTS repository.

  Shallow embedding conventions:
  - Audio frames are opaque values of a type parameter; the Silero estimator
    (an external collaborator) is a parameter est giving each frame its
    speech probability, modelled as a rational number.
  - Wall-clock times (time.time()) are rationals; each processed frame is
    paired with the clock value current while it is handled, and both
    time.time() calls made while one frame is handled (segment timestamp and
    last_speech_end_time) observe that same value.
  - Python float comparisons on probabilities and times become exact
    rational comparisons.
  - collections.deque(maxlen=m) is a list in oldest-to-newest order; append
    keeps the last m elements.
  - Callback invocations (on_speech_start, on_speech_end, on_segment,
    on_transcript, on_audio) and log lines are recorded as event lists.
-/

namespace SpeechPipeline

/-! ## Voice Activity Segmenter (src/app/capture.py, AudioCaptureVAD) -/

/-- States of the VAD state machine (class VADState in capture.py). -/
inductive VADState where
  | idle
  | inSpeech
deriving DecidableEq

/-- Observable events of one segmenter step: the on_speech_start and
on_speech_end notifications and the on_segment callback (class
AudioSegment: the emitted frames plus the timestamp taken at emission). -/
inductive VADEvent (α : Type) where
  | speechStart
  | speechEnd
  | segment (frames : List α) (timestamp : ℚ)
deriving DecidableEq

/-- Configuration fields of AudioCaptureVAD.__init__ that the state machine
reads: thresholds, the frame-count forms of the duration parameters, the
deque capacity prebuffer_frames, and tail_frames_needed. -/
structure VADConfig where
  startThreshold : ℚ
  endThreshold : ℚ
  minSpeechFrames : ℕ
  minSilenceFrames : ℕ
  prebufferFrames : ℕ
  tailFramesNeeded : ℕ
deriving DecidableEq

/-- Mutable fields of an AudioCaptureVAD object that the per-frame algorithm
touches, plus tail_buffer and the running flag and the sample accumulation
buffer used by the audio callback. -/
structure CaptureState (α : Type) where
  state : VADState
  speechFrames : ℕ
  silenceFrames : ℕ
  prebuffer : List α
  utteranceBuffer : List α
  tailBuffer : List α
  sampleBuffer : List ℚ
  lastSpeechEndTime : ℚ
  running : Bool
deriving DecidableEq

/-- Append on a collections.deque with maxlen m: keep the last m elements of
the extended list (oldest elements are discarded from the left). -/
def ringAppend (m : ℕ) (q : List α) (x : α) : List α :=
  (q ++ [x]).drop (q.length + 1 - m)

/-- State as constructed by AudioCaptureVAD.__init__: IDLE, zero counters,
empty buffers, last_speech_end_time = 0.0, not running. -/
def initState (α : Type) : CaptureState α :=
  { state := .idle
    speechFrames := 0
    silenceFrames := 0
    prebuffer := []
    utteranceBuffer := []
    tailBuffer := []
    sampleBuffer := []
    lastSpeechEndTime := 0
    running := false }

/-- Body of AudioCaptureVAD._process_frame once the probability prob of the
frame is known, together with the part of _emit_segment it calls.  Mirrors
the source line by line: in IDLE the frame is always pushed into the
prebuffer first; a probability at or above start_threshold increments the
speech counter and, when that counter reaches min_speech_frames, transitions
to IN_SPEECH (silence counter zeroed, utterance buffer seeded from the
prebuffer, on_speech_start fired); otherwise the counter resets.  In
IN_SPEECH the frame is appended to the utterance buffer first; a probability
below end_threshold increments the silence counter and, when it reaches
min_silence_frames, _emit_segment runs (emitting the concatenated buffer
unless it is empty), then the machine resets to IDLE clearing both buffers
and both counters, records last_speech_end_time = now, and fires
on_speech_end; otherwise the silence counter resets. -/
def processFrameCore (cfg : VADConfig) (prob : ℚ) (now : ℚ)
    (s : CaptureState α) (f : α) : CaptureState α × List (VADEvent α) :=
  match s.state with
  | .idle =>
      let pre := ringAppend cfg.prebufferFrames s.prebuffer f
      if cfg.startThreshold ≤ prob then
        if cfg.minSpeechFrames ≤ s.speechFrames + 1 then
          ({ s with
              state := .inSpeech
              speechFrames := s.speechFrames + 1
              silenceFrames := 0
              prebuffer := pre
              utteranceBuffer := pre },
           [VADEvent.speechStart])
        else
          ({ s with speechFrames := s.speechFrames + 1, prebuffer := pre }, [])
      else
        ({ s with speechFrames := 0, prebuffer := pre }, [])
  | .inSpeech =>
      let ub := s.utteranceBuffer ++ [f]
      if prob < cfg.endThreshold then
        if cfg.minSilenceFrames ≤ s.silenceFrames + 1 then
          ({ s with
              state := .idle
              speechFrames := 0
              silenceFrames := 0
              utteranceBuffer := []
              prebuffer := []
              lastSpeechEndTime := now },
           (if ub.isEmpty then [] else [VADEvent.segment ub now]) ++
             [VADEvent.speechEnd])
        else
          ({ s with
              utteranceBuffer := ub
              silenceFrames := s.silenceFrames + 1 }, [])
      else
        ({ s with utteranceBuffer := ub, silenceFrames := 0 }, [])

/-- AudioCaptureVAD._process_frame with a total estimator est (the Silero
model call in _vad_probability succeeding on every frame). -/
def processFrame (cfg : VADConfig) (est : α → ℚ) (now : ℚ)
    (s : CaptureState α) (f : α) : CaptureState α × List (VADEvent α) :=
  processFrameCore cfg (est f) now s f

/-- AudioCaptureVAD._process_frame with a fallible estimator.  The source
has no try/except around the self._vad_probability(audio) call (nor does
_audio_callback around _process_frame), and that call is the first statement
of _process_frame, before any field is assigned: when the estimator raises,
the exception escapes _process_frame with the object state unchanged and no
callbacks fired.  The third component records the escaping exception. -/
def processFrameExn (cfg : VADConfig) (est : α → Except String ℚ) (now : ℚ)
    (s : CaptureState α) (f : α) :
    CaptureState α × List (VADEvent α) × Option String :=
  match est f with
  | .error e => (s, [], some e)
  | .ok p =>
      let r := processFrameCore cfg p now s f
      (r.1, r.2, none)

/-- Feed a list of (frame, clock value) pairs through _process_frame in
order, concatenating the emitted events. -/
def runP (cfg : VADConfig) (est : α → ℚ) :
    CaptureState α → List (α × ℚ) → CaptureState α × List (VADEvent α)
  | s, [] => (s, [])
  | s, p :: rest =>
      let r1 := processFrame cfg est p.2 s p.1
      let r2 := runP cfg est r1.1 rest
      (r2.1, r1.2 ++ r2.2)

/-- AudioCaptureVAD.start: a no-op when already running, otherwise set the
running flag, reset the estimator (external), return the state machine to
IDLE and clear the prebuffer, the utterance buffer and the sample
accumulation buffer (the counters and last_speech_end_time are left as they
were, exactly as in the source). -/
def captureStart (s : CaptureState α) : CaptureState α :=
  if s.running then s
  else
    { s with
        running := true
        state := .idle
        prebuffer := []
        utteranceBuffer := []
        sampleBuffer := [] }

/-- AudioCaptureVAD.stop: clear the running flag and close the stream
(external); no state-machine field is reset. -/
def captureStop (s : CaptureState α) : CaptureState α :=
  { s with running := false }

/-- AudioCaptureVAD.is_speaking. -/
def isSpeaking (s : CaptureState α) : Bool :=
  s.state = VADState.inSpeech

/-! ## Playback controller (src/app/playback.py, PlaybackController) -/

/-- Queue and playing slot of PlaybackController (the fields its scheduling
decisions read and write; OBS timers are display-only side channels). -/
structure PlaybackState (I : Type) where
  queue : List I
  isPlaying : Bool
  currentClip : Option I
deriving DecidableEq

/-- PlaybackController.enqueue: when the queue already holds at least
queue_max_items items the oldest queued item is popped from the left and
logged as dropped, then the new item is appended.  deque.popleft() on an
empty deque raises, hence the none case (reachable only with a zero
capacity), faithful to the source.  Returns the new state and the list of
items logged as dropped. -/
def pbEnqueue (cap : ℕ) (s : PlaybackState I) (x : I) :
    Option (PlaybackState I × List I) :=
  if cap ≤ s.queue.length then
    match s.queue with
    | [] => none
    | d :: rest => some ({ s with queue := rest ++ [x] }, [d])
  else
    some ({ s with queue := s.queue ++ [x] }, [])

/-- PlaybackController.clear_queue: discard all pending items; the currently
playing clip is untouched. -/
def pbClearQueue (s : PlaybackState I) : PlaybackState I :=
  { s with queue := [] }

/-- Decision part of one iteration of PlaybackController._worker_loop
(lines 115-146): read the clock, last_speech_end and is_speaking; when the
user is speaking and nothing is playing, clear the pending queue;
silence_elapsed is now - last_speech_end, treated as infinite when
last_speech_end is not positive (no speech has ever ended); playback may
start only when silence_elapsed is at least vad_end_timeout_seconds and the
user is not speaking; when nothing is playing, starting is permitted and the
queue is non-empty, the head item is popped and becomes the current clip. -/
def schedStep (vadEndTimeout now lastSpeechEnd : ℚ) (userSpeaking : Bool)
    (s : PlaybackState I) : PlaybackState I :=
  let s1 := if userSpeaking && !s.isPlaying then pbClearQueue s else s
  let silenceOk : Bool :=
    if 0 < lastSpeechEnd then decide (vadEndTimeout ≤ now - lastSpeechEnd)
    else true
  let canStart := silenceOk && !userSpeaking
  if !s1.isPlaying && canStart then
    match s1.queue with
    | [] => s1
    | x :: rest =>
        { s1 with queue := rest, currentClip := some x, isPlaying := true }
  else s1

/-! ## Stage workers (src/app/stt_worker.py and src/app/tts_worker.py) -/

/-- AudioSegment (capture.py): concatenated samples, sample rate, end
timestamp.  Samples are rationals in the embedding. -/
structure SegmentMsg where
  samples : List ℚ
  sampleRate : ℕ
  timestamp : ℚ
deriving DecidableEq

/-- TranscriptResult (stt_worker.py). -/
structure TranscriptResult where
  text : String
  samples : List ℚ
  sampleRate : ℕ
  timestamp : ℚ
deriving DecidableEq

/-- TTSResult (tts_worker.py). -/
structure TTSResult where
  samples : List ℚ
  sampleRate : ℕ
  transcript : String
  timestamp : ℚ
deriving DecidableEq

/-- Observable events of one STT worker-loop body: the on_transcript
callback, the Error log line of the except branch, and the empty-transcript
log line. -/
inductive SttEv where
  | callback (r : TranscriptResult)
  | logError (e : String)
  | logEmpty
deriving DecidableEq

/-- Observable events of one TTS worker-loop body: the on_audio callback and
the Error log line of the except branch. -/
inductive TtsEv where
  | callback (r : TTSResult)
  | logError (e : String)
deriving DecidableEq

/-- Body of STTWorker._worker_loop for one dequeued segment.  The external
transcription engine (model.transcribe followed by joining and stripping the
piece texts) is the parameter transcribe; an exception anywhere in the try
block is caught and logged; a non-empty text builds a TranscriptResult
carrying the original samples, rate and timestamp and fires on_transcript;
an empty text only logs. -/
def sttStep (transcribe : List ℚ → ℕ → Except String String)
    (seg : SegmentMsg) : List SttEv :=
  match transcribe seg.samples seg.sampleRate with
  | .error e => [.logError e]
  | .ok text =>
      if text = "" then [.logEmpty]
      else
        [.callback
          { text := text
            samples := seg.samples
            sampleRate := seg.sampleRate
            timestamp := seg.timestamp }]

/-- STTWorker._worker_loop over a list of dequeued segments: the loop body
never raises (its try/except swallows processing errors), so the loop
consumes every item in order. -/
def sttRun (transcribe : List ℚ → ℕ → Except String String) :
    List SegmentMsg → List SttEv
  | [] => []
  | seg :: rest => sttStep transcribe seg ++ sttRun transcribe rest

/-- Body of TTSWorker._worker_loop for one dequeued transcript.  The
external synthesis engine (model.create) is the parameter synth and may
fail; the Praat pitch shifter is the total parameter shiftFn, applied only
when pitch_semitones is non-zero; on success a TTSResult is built (stamped
with the clock value now) and on_audio fires; an exception is caught and
logged. -/
def ttsStep (synth : String → Except String (List ℚ × ℕ)) (pitch : ℚ)
    (shiftFn : List ℚ → ℕ → List ℚ) (now : ℚ)
    (tr : TranscriptResult) : List TtsEv :=
  match synth tr.text with
  | .error e => [.logError e]
  | .ok out =>
      let shifted := if pitch ≠ 0 then shiftFn out.1 out.2 else out.1
      [.callback
        { samples := shifted
          sampleRate := out.2
          transcript := tr.text
          timestamp := now }]

/-- TTSWorker._worker_loop over a list of dequeued transcripts. -/
def ttsRun (synth : String → Except String (List ℚ × ℕ)) (pitch : ℚ)
    (shiftFn : List ℚ → ℕ → List ℚ) (now : ℚ) :
    List TranscriptResult → List TtsEv
  | [] => []
  | tr :: rest =>
      ttsStep synth pitch shiftFn now tr ++ ttsRun synth pitch shiftFn now rest

/-! ## Pause coordinator (src/app/main.py, STTTTSApp._toggle_pause) -/

/-- Application state reached by _toggle_pause: the pause flag, the two
stage queues, the playback controller and the capture object. -/
structure AppState (α : Type) where
  paused : Bool
  sttQueue : List SegmentMsg
  ttsQueue : List TranscriptResult
  playback : PlaybackState TTSResult
  capture : CaptureState α
deriving DecidableEq

/-- STTTTSApp._toggle_pause: flip the flag under the lock; on entering the
paused state clear the STT queue, the TTS queue and the playback pending
queue (each worker's clear_queue loops until its queue is empty) and stop
capture; on leaving it restart capture. -/
def togglePause (a : AppState α) : AppState α :=
  if a.paused then
    { a with paused := false, capture := captureStart a.capture }
  else
    { a with
        paused := true
        sttQueue := []
        ttsQueue := []
        playback := pbClearQueue a.playback
        capture := captureStop a.capture }

/-! ## Basic run lemmas -/

@[simp]
theorem runP_nil (cfg : VADConfig) (est : α → ℚ) (s : CaptureState α) :
    runP cfg est s [] = (s, []) := rfl

theorem runP_cons (cfg : VADConfig) (est : α → ℚ) (s : CaptureState α)
    (p : α × ℚ) (rest : List (α × ℚ)) :
    runP cfg est s (p :: rest) =
      ((runP cfg est (processFrame cfg est p.2 s p.1).1 rest).1,
       (processFrame cfg est p.2 s p.1).2 ++
         (runP cfg est (processFrame cfg est p.2 s p.1).1 rest).2) := rfl

theorem runP_append (cfg : VADConfig) (est : α → ℚ) (l1 l2 : List (α × ℚ)) :
    ∀ (s : CaptureState α),
      runP cfg est s (l1 ++ l2) =
        ((runP cfg est (runP cfg est s l1).1 l2).1,
         (runP cfg est s l1).2 ++ (runP cfg est (runP cfg est s l1).1 l2).2) := by
  induction l1 with
  | nil => intro s; simp
  | cons p rest ih =>
      intro s
      simp only [List.cons_append, runP_cons, ih, List.append_assoc]

/-! ## IDLE-phase lemmas (towards C1) -/

/-- Processing a run of consecutive frames at or above start_threshold while
IDLE, too short to reach min_speech_frames: the machine stays IDLE, the
speech counter advances by one per frame, every frame enters the prebuffer,
and no notification fires. -/
theorem runP_idle_speech (cfg : VADConfig) (est : α → ℚ) :
    ∀ (fr : List (α × ℚ)) (sf sil : ℕ) (pre ub tb : List α) (sb : List ℚ)
      (lt : ℚ) (rn : Bool),
      (∀ p ∈ fr, cfg.startThreshold ≤ est p.1) →
      sf + fr.length < cfg.minSpeechFrames →
      runP cfg est ⟨.idle, sf, sil, pre, ub, tb, sb, lt, rn⟩ fr =
        (⟨.idle, sf + fr.length, sil,
          List.foldl (ringAppend cfg.prebufferFrames) pre (fr.map Prod.fst),
          ub, tb, sb, lt, rn⟩, [])
  | [], sf, sil, pre, ub, tb, sb, lt, rn, _, _ => by simp
  | (f, t) :: rest, sf, sil, pre, ub, tb, sb, lt, rn, hsp, hlt => by
      have hf : cfg.startThreshold ≤ est f := hsp (f, t) (by simp)
      have hnot : ¬ cfg.minSpeechFrames ≤ sf + 1 := by
        simp only [List.length_cons] at hlt; omega
      rw [runP_cons]
      simp only [processFrame, processFrameCore, if_pos hf, if_neg hnot]
      rw [runP_idle_speech cfg est rest (sf + 1) sil _ ub tb sb lt rn
        (fun p hp => hsp p (List.mem_cons_of_mem _ hp))
        (by simp only [List.length_cons] at hlt; omega)]
      have harith : sf + 1 + rest.length = sf + (rest.length + 1) := by omega
      simp only [List.length_cons, List.map_cons, List.foldl_cons, harith,
        List.nil_append]

/-- Processing a run of consecutive frames at or above start_threshold while
IDLE whose length makes the speech counter reach exactly min_speech_frames
at its last frame: the machine transitions to IN_SPEECH on that last frame,
zeroes the silence counter, seeds the utterance buffer with the full ring
contents, and fires on_speech_start exactly once. -/
theorem runP_idle_transition (cfg : VADConfig) (est : α → ℚ) :
    ∀ (fr : List (α × ℚ)) (sf sil : ℕ) (pre ub tb : List α) (sb : List ℚ)
      (lt : ℚ) (rn : Bool),
      (∀ p ∈ fr, cfg.startThreshold ≤ est p.1) →
      sf < cfg.minSpeechFrames →
      sf + fr.length = cfg.minSpeechFrames →
      runP cfg est ⟨.idle, sf, sil, pre, ub, tb, sb, lt, rn⟩ fr =
        (⟨.inSpeech, cfg.minSpeechFrames, 0,
          List.foldl (ringAppend cfg.prebufferFrames) pre (fr.map Prod.fst),
          List.foldl (ringAppend cfg.prebufferFrames) pre (fr.map Prod.fst),
          tb, sb, lt, rn⟩, [VADEvent.speechStart])
  | [], sf, sil, pre, ub, tb, sb, lt, rn, _, hlt, heq => by
      simp only [List.length_nil] at heq; omega
  | (f, t) :: rest, sf, sil, pre, ub, tb, sb, lt, rn, hsp, hlt, heq => by
      have hf : cfg.startThreshold ≤ est f := hsp (f, t) (by simp)
      rw [runP_cons]
      by_cases hk : cfg.minSpeechFrames ≤ sf + 1
      · have hrest : rest = [] := by
          have : sf + 1 = cfg.minSpeechFrames := by omega
          simp only [List.length_cons] at heq
          have : rest.length = 0 := by omega
          exact List.eq_nil_of_length_eq_zero this
        subst hrest
        have hsf1 : sf + 1 = cfg.minSpeechFrames := by omega
        simp only [processFrame, processFrameCore, if_pos hf, if_pos hk]
        simp [hsf1]
      · simp only [processFrame, processFrameCore, if_pos hf, if_neg hk]
        rw [runP_idle_transition cfg est rest (sf + 1) sil _ ub tb sb lt rn
          (fun p hp => hsp p (List.mem_cons_of_mem _ hp))
          (by omega)
          (by simp only [List.length_cons] at heq; omega)]
        simp

/-! ## Claim C1 -/

/-- C1: while the Segmenter is IDLE with its speech counter at zero, a run
of min_speech_frames consecutive frames with probability at or above
start_threshold makes the state transition to IN_SPEECH exactly at the
frame where the counter reaches min_speech_frames: every proper prefix of
the run leaves the machine IDLE with the counter equal to the prefix length
and no notification, and the full run ends IN_SPEECH with the silence
counter reset to zero, the utterance buffer seeded with the full current
contents of the preroll ring in oldest-to-newest order (the ring obtained by
pushing each frame of the run, the triggering frame included), and the
speech-start notification invoked exactly once; moreover any frame with
probability below start_threshold processed while IDLE resets the speech
counter to zero and fires nothing. -/
theorem c1_idle_to_in_speech (cfg : VADConfig) (est : α → ℚ)
    (s : CaptureState α) (fr : List (α × ℚ))
    (hk : 1 ≤ cfg.minSpeechFrames)
    (hs : s.state = .idle) (hc : s.speechFrames = 0)
    (hlen : fr.length = cfg.minSpeechFrames)
    (hsp : ∀ p ∈ fr, cfg.startThreshold ≤ est p.1) :
    (runP cfg est s fr =
      ({ s with
          state := .inSpeech
          speechFrames := cfg.minSpeechFrames
          silenceFrames := 0
          prebuffer := List.foldl (ringAppend cfg.prebufferFrames)
            s.prebuffer (fr.map Prod.fst)
          utteranceBuffer := List.foldl (ringAppend cfg.prebufferFrames)
            s.prebuffer (fr.map Prod.fst) },
       [VADEvent.speechStart])) ∧
    (∀ j < cfg.minSpeechFrames,
      (runP cfg est s (fr.take j)).1.state = .idle ∧
      (runP cfg est s (fr.take j)).1.speechFrames = j ∧
      (runP cfg est s (fr.take j)).2 = []) ∧
    (∀ (s2 : CaptureState α) (f : α) (t : ℚ), s2.state = .idle →
      est f < cfg.startThreshold →
      (processFrame cfg est t s2 f).1.speechFrames = 0 ∧
      (processFrame cfg est t s2 f).2 = []) := by
  obtain ⟨st, sf, sil, pre, ub, tb, sb, lt, rn⟩ := s
  obtain rfl : st = .idle := hs
  obtain rfl : sf = 0 := hc
  refine ⟨?_, ?_, ?_⟩
  · have h := runP_idle_transition cfg est fr 0 sil pre ub tb sb lt rn hsp
      (by omega) (by omega)
    simpa using h
  · intro j hj
    have hsub : ∀ p ∈ fr.take j, cfg.startThreshold ≤ est p.1 :=
      fun p hp => hsp p (List.take_subset _ _ hp)
    have hlt : 0 + (fr.take j).length < cfg.minSpeechFrames := by
      rw [List.length_take, hlen]; omega
    rw [runP_idle_speech cfg est (fr.take j) 0 sil pre ub tb sb lt rn hsub hlt]
    refine ⟨rfl, ?_, rfl⟩
    show 0 + (fr.take j).length = j
    rw [List.length_take, hlen]
    omega
  · intro s2 f t h2 hlt2
    obtain ⟨st2, sf2, sil2, pre2, ub2, tb2, sb2, lt2, rn2⟩ := s2
    obtain rfl : st2 = .idle := h2
    simp [processFrame, processFrameCore, not_le.mpr hlt2]

/-- Configuration used by the small concrete witnesses: thresholds 0.5 and
0.35, two frames of minimum speech, three of minimum silence, ring capacity
four, tail_frames_needed four. -/
def cfgW : VADConfig :=
  { startThreshold := mkRat 1 2
    endThreshold := mkRat 7 20
    minSpeechFrames := 2
    minSilenceFrames := 3
    prebufferFrames := 4
    tailFramesNeeded := 4 }

/-- Estimator assigning every frame probability 0.9. -/
def estHigh : ℕ → ℚ := fun _ => mkRat 9 10

theorem c1_witness :
    (runP cfgW estHigh (initState ℕ) [(0, 0), (1, 0)]).2 =
      [VADEvent.speechStart] := by
  rw [(c1_idle_to_in_speech cfgW estHigh (initState ℕ) [(0, 0), (1, 0)]
    (by decide) rfl rfl rfl (by decide)).1]

/-! ## Claim C2 -/

/-- Processing a run of consecutive frames below end_threshold while
IN_SPEECH, too short to reach min_silence_frames: no segment and no
notification is emitted, the machine stays IN_SPEECH, the silence counter
advances by one per frame and every frame is appended to the utterance
buffer. -/
theorem runP_inSpeech_silence (cfg : VADConfig) (est : α → ℚ) :
    ∀ (fr : List (α × ℚ)) (sf sil : ℕ) (pre ub tb : List α) (sb : List ℚ)
      (lt : ℚ) (rn : Bool),
      (∀ p ∈ fr, est p.1 < cfg.endThreshold) →
      sil + fr.length < cfg.minSilenceFrames →
      runP cfg est ⟨.inSpeech, sf, sil, pre, ub, tb, sb, lt, rn⟩ fr =
        (⟨.inSpeech, sf, sil + fr.length, pre, ub ++ fr.map Prod.fst,
          tb, sb, lt, rn⟩, [])
  | [], sf, sil, pre, ub, tb, sb, lt, rn, _, _ => by simp
  | (f, t) :: rest, sf, sil, pre, ub, tb, sb, lt, rn, hsp, hlt => by
      have hf : est f < cfg.endThreshold := hsp (f, t) (by simp)
      have hnot : ¬ cfg.minSilenceFrames ≤ sil + 1 := by
        simp only [List.length_cons] at hlt; omega
      rw [runP_cons]
      simp only [processFrame, processFrameCore, if_pos hf, if_neg hnot]
      rw [runP_inSpeech_silence cfg est rest sf (sil + 1) pre (ub ++ [f])
        tb sb lt rn
        (fun p hp => hsp p (List.mem_cons_of_mem _ hp))
        (by simp only [List.length_cons] at hlt; omega)]
      have harith : sil + 1 + rest.length = sil + (rest.length + 1) := by omega
      simp only [List.length_cons, List.map_cons, harith, List.append_assoc,
        List.singleton_append, List.nil_append]

/-- C2: while IN_SPEECH a Segment is emitted exactly when the silence
counter reaches min_silence_frames.  First conjunct: on the frame whose
probability is below end_threshold and which brings the counter to
min_silence_frames, the emitted Segment is the concatenated utterance buffer
(the frame itself included, as it is appended before the silence check)
stamped with the current time, the machine returns to IDLE with both buffers
cleared and both counters zeroed, lastSpeechEndTime is set to the current
time, and the speech-end notification fires.  Second conjunct: a run of
sub-end_threshold frames too short to reach min_silence_frames emits
nothing.  Third conjunct: a frame at or above end_threshold resets the
silence counter to zero and emits nothing. -/
theorem c2_emit_iff_silence_reached (cfg : VADConfig) (est : α → ℚ) :
    (∀ (s : CaptureState α) (f : α) (t : ℚ), s.state = .inSpeech →
      est f < cfg.endThreshold →
      cfg.minSilenceFrames ≤ s.silenceFrames + 1 →
      processFrame cfg est t s f =
        ({ s with
            state := .idle
            speechFrames := 0
            silenceFrames := 0
            utteranceBuffer := []
            prebuffer := []
            lastSpeechEndTime := t },
         [VADEvent.segment (s.utteranceBuffer ++ [f]) t,
          VADEvent.speechEnd])) ∧
    (∀ (s : CaptureState α) (fr : List (α × ℚ)), s.state = .inSpeech →
      (∀ p ∈ fr, est p.1 < cfg.endThreshold) →
      s.silenceFrames + fr.length < cfg.minSilenceFrames →
      runP cfg est s fr =
        ({ s with
            silenceFrames := s.silenceFrames + fr.length
            utteranceBuffer := s.utteranceBuffer ++ fr.map Prod.fst }, [])) ∧
    (∀ (s : CaptureState α) (f : α) (t : ℚ), s.state = .inSpeech →
      cfg.endThreshold ≤ est f →
      processFrame cfg est t s f =
        ({ s with
            silenceFrames := 0
            utteranceBuffer := s.utteranceBuffer ++ [f] }, [])) := by
  refine ⟨?_, ?_, ?_⟩
  · intro s f t hs hf hge
    obtain ⟨st, sf, sil, pre, ub, tb, sb, lt, rn⟩ := s
    obtain rfl : st = .inSpeech := hs
    simp only [processFrame, processFrameCore, if_pos hf, if_pos hge]
    simp
  · intro s fr hs hsp hlt
    obtain ⟨st, sf, sil, pre, ub, tb, sb, lt, rn⟩ := s
    obtain rfl : st = .inSpeech := hs
    exact runP_inSpeech_silence cfg est fr sf sil pre ub tb sb lt rn hsp hlt
  · intro s f t hs hf
    obtain ⟨st, sf, sil, pre, ub, tb, sb, lt, rn⟩ := s
    obtain rfl : st = .inSpeech := hs
    simp [processFrame, processFrameCore, not_lt.mpr hf]

/-- Estimator assigning every frame probability 0.1. -/
def estLow : ℕ → ℚ := fun _ => mkRat 1 10

/-- State deep in an utterance used by concrete witnesses: IN_SPEECH,
silence counter already at two, utterance buffer holding frames 5 and 6. -/
def sInSpeechW : CaptureState ℕ :=
  { state := .inSpeech
    speechFrames := 2
    silenceFrames := 2
    prebuffer := []
    utteranceBuffer := [5, 6]
    tailBuffer := []
    sampleBuffer := []
    lastSpeechEndTime := 0
    running := true }

theorem c2_witness :
    (processFrame cfgW estLow 7 sInSpeechW 9).2 =
      [VADEvent.segment [5, 6, 9] 7, VADEvent.speechEnd] := by
  rw [(c2_emit_iff_silence_reached cfgW estLow).1 sInSpeechW 9 7 rfl
    (by decide) (by decide)]
  rfl

/-! ## Claim C3 -/

/-- C3: the scheduling decision of PlaybackController._worker_loop never
starts a queued item unless the user is not currently speaking and the
elapsed time since lastSpeechEndTime is at least vad_end_timeout_seconds,
the elapsed time being unconstrained (treated as infinite) when
last_speech_end is not positive, i.e. when no speech has ever ended; and in
the concrete scenario lastSpeechEndTime = 100, timeout 1.0, not speaking,
queue non-empty: at clock 100.5 nothing starts, at clock 101.1 the head
item starts playing. -/
theorem c3_playback_gate :
    (∀ (I : Type) (tmo now lastEnd : ℚ) (speaking : Bool)
       (s : PlaybackState I),
      s.isPlaying = false →
      (schedStep tmo now lastEnd speaking s).isPlaying = true →
      speaking = false ∧ (0 < lastEnd → tmo ≤ now - lastEnd)) ∧
    (schedStep 1 ((201 : ℚ)/2) 100 false
      ({ queue := [0], isPlaying := false, currentClip := none } :
        PlaybackState ℕ) =
      { queue := [0], isPlaying := false, currentClip := none }) ∧
    (schedStep 1 ((1011 : ℚ)/10) 100 false
      ({ queue := [0], isPlaying := false, currentClip := none } :
        PlaybackState ℕ) =
      { queue := [], isPlaying := true, currentClip := some 0 }) := by
  refine ⟨?_, ?_, ?_⟩
  · intro I tmo now lastEnd speaking s hnp hstart
    cases speaking with
    | true =>
        exfalso
        simp only [schedStep] at hstart
        simp [hnp, pbClearQueue] at hstart
    | false =>
        refine ⟨rfl, fun h0 => ?_⟩
        by_cases hP : tmo ≤ now - lastEnd
        · exact hP
        · exfalso
          simp only [schedStep] at hstart
          rw [if_pos h0] at hstart
          simp [hP, hnp, pbClearQueue] at hstart
  · norm_num [schedStep, pbClearQueue]
  · norm_num [schedStep, pbClearQueue]

theorem c3_witness :
    false = false ∧ ((0 : ℚ) < 100 → (1 : ℚ) ≤ (1011 : ℚ)/10 - 100) := by
  refine c3_playback_gate.1 ℕ 1 ((1011 : ℚ)/10) 100 false
    { queue := [0], isPlaying := false, currentClip := none } rfl ?_
  rw [c3_playback_gate.2.2]

/-! ## Claim C6 -/

/-- C6: an enqueue performed while the pending queue already holds exactly
the capacity removes the oldest queued item, logs it as dropped, and appends
the new item, leaving the currently-playing slot untouched and the queue at
capacity; every completed enqueue from a state within capacity stays within
capacity and never touches the currently-playing slot; and enqueueing A, B,
C in order with capacity two from an idle empty queue leaves exactly B then
C with a drop logged for A. -/
theorem c6_enqueue_drop_oldest :
    (∀ (I : Type) (cap : ℕ) (s : PlaybackState I) (x d : I) (rest : List I),
      s.queue = d :: rest → s.queue.length = cap →
      pbEnqueue cap s x = some ({ s with queue := rest ++ [x] }, [d]) ∧
      (rest ++ [x]).length = cap) ∧
    (∀ (I : Type) (cap : ℕ) (s s2 : PlaybackState I) (x : I) (lg : List I),
      s.queue.length ≤ cap → pbEnqueue cap s x = some (s2, lg) →
      s2.queue.length ≤ cap ∧ s2.currentClip = s.currentClip ∧
      s2.isPlaying = s.isPlaying) ∧
    (pbEnqueue 2 ({ queue := [], isPlaying := false, currentClip := none } :
        PlaybackState ℕ) 0 =
      some ({ queue := [0], isPlaying := false, currentClip := none }, []) ∧
     pbEnqueue 2 ({ queue := [0], isPlaying := false, currentClip := none } :
        PlaybackState ℕ) 1 =
      some ({ queue := [0, 1], isPlaying := false, currentClip := none }, []) ∧
     pbEnqueue 2 ({ queue := [0, 1]
                    isPlaying := false
                    currentClip := none } : PlaybackState ℕ) 2 =
      some ({ queue := [1, 2], isPlaying := false, currentClip := none },
        [0])) := by
  refine ⟨?_, ?_, by decide⟩
  · intro I cap s x d rest hq hlen
    have hcap : cap ≤ s.queue.length := le_of_eq hlen.symm
    rw [hq] at hcap
    refine ⟨?_, ?_⟩
    · simp only [pbEnqueue, hq, if_pos hcap]
    · rw [← hlen, hq]
      simp
  · intro I cap s s2 x lg hle h
    by_cases hcap : cap ≤ s.queue.length
    · cases hq : s.queue with
      | nil =>
          exfalso
          rw [hq] at hcap
          simp only [pbEnqueue, hq, if_pos hcap] at h
          exact Option.noConfusion h
      | cons d rest =>
          rw [hq] at hcap
          simp only [pbEnqueue, hq, if_pos hcap] at h
          obtain ⟨rfl, rfl⟩ :
              ({ s with queue := rest ++ [x] } = s2) ∧ [d] = lg := by
            have hp := Option.some.inj h
            exact ⟨congrArg Prod.fst hp, congrArg Prod.snd hp⟩
          refine ⟨?_, rfl, rfl⟩
          have hql : s.queue.length = rest.length + 1 := by rw [hq]; simp
          show (rest ++ [x]).length ≤ cap
          simp only [List.length_append, List.length_singleton]
          omega
    · simp only [pbEnqueue, if_neg hcap] at h
      obtain ⟨rfl, rfl⟩ :
          ({ s with queue := s.queue ++ [x] } = s2) ∧ [] = lg := by
        have hp := Option.some.inj h
        exact ⟨congrArg Prod.fst hp, congrArg Prod.snd hp⟩
      refine ⟨?_, rfl, rfl⟩
      show (s.queue ++ [x]).length ≤ cap
      simp only [List.length_append, List.length_singleton]
      omega

theorem c6_witness :
    pbEnqueue 2 ({ queue := [10, 11]
                   isPlaying := true
                   currentClip := some 9 } : PlaybackState ℕ) 12 =
      some ({ queue := [11, 12], isPlaying := true, currentClip := some 9 },
        [10]) ∧
    ([11, 12] : List ℕ).length = 2 :=
  c6_enqueue_drop_oldest.1 ℕ 2
    { queue := [10, 11], isPlaying := true, currentClip := some 9 }
    12 10 [11] rfl rfl

/-! ## Claim C7 -/

/-- C7: for both stage worker loops an exception raised by the external
processing function is caught and logged as the item's only event and the
loop continues (processing a concatenation of work lists is the
concatenation of the per-list processing, so a failing item never halts the
stage), and the downstream callback fires exactly when the processing
produced a result: the transcription stage fires on_transcript exactly for a
successfully transcribed non-empty text, and the synthesis stage fires
on_audio exactly for a successful synthesis. -/
theorem c7_worker_error_handling :
    (∀ (transcribe : List ℚ → ℕ → Except String String)
       (l1 l2 : List SegmentMsg),
      sttRun transcribe (l1 ++ l2) =
        sttRun transcribe l1 ++ sttRun transcribe l2) ∧
    (∀ (transcribe : List ℚ → ℕ → Except String String) (seg : SegmentMsg)
       (e : String),
      transcribe seg.samples seg.sampleRate = .error e →
      sttStep transcribe seg = [.logError e]) ∧
    (∀ (transcribe : List ℚ → ℕ → Except String String) (seg : SegmentMsg),
      (∃ r, SttEv.callback r ∈ sttStep transcribe seg) ↔
        (∃ text, transcribe seg.samples seg.sampleRate = .ok text ∧
          text ≠ "")) ∧
    (∀ (synth : String → Except String (List ℚ × ℕ)) (pitch : ℚ)
       (shiftFn : List ℚ → ℕ → List ℚ) (now : ℚ)
       (l1 l2 : List TranscriptResult),
      ttsRun synth pitch shiftFn now (l1 ++ l2) =
        ttsRun synth pitch shiftFn now l1 ++
          ttsRun synth pitch shiftFn now l2) ∧
    (∀ (synth : String → Except String (List ℚ × ℕ)) (pitch : ℚ)
       (shiftFn : List ℚ → ℕ → List ℚ) (now : ℚ) (tr : TranscriptResult)
       (e : String),
      synth tr.text = .error e →
      ttsStep synth pitch shiftFn now tr = [.logError e]) ∧
    (∀ (synth : String → Except String (List ℚ × ℕ)) (pitch : ℚ)
       (shiftFn : List ℚ → ℕ → List ℚ) (now : ℚ) (tr : TranscriptResult),
      (∃ r, TtsEv.callback r ∈ ttsStep synth pitch shiftFn now tr) ↔
        (∃ out, synth tr.text = .ok out)) := by
  refine ⟨?_, ?_, ?_, ?_, ?_, ?_⟩
  · intro transcribe l1 l2
    induction l1 with
    | nil => simp [sttRun]
    | cons seg rest ih => simp [sttRun, ih]
  · intro transcribe seg e h
    simp [sttStep, h]
  · intro transcribe seg
    constructor
    · rintro ⟨r, hr⟩
      rcases htr : transcribe seg.samples seg.sampleRate with e | text
      · simp [sttStep, htr] at hr
      · by_cases hempty : text = ""
        · simp [sttStep, htr, hempty] at hr
        · exact ⟨text, rfl, hempty⟩
    · rintro ⟨text, htr, hne⟩
      refine ⟨{ text := text, samples := seg.samples,
                sampleRate := seg.sampleRate, timestamp := seg.timestamp },
              ?_⟩
      simp [sttStep, htr, if_neg hne]
  · intro synth pitch shiftFn now l1 l2
    induction l1 with
    | nil => simp [ttsRun]
    | cons tr rest ih => simp [ttsRun, ih]
  · intro synth pitch shiftFn now tr e h
    simp [ttsStep, h]
  · intro synth pitch shiftFn now tr
    constructor
    · rintro ⟨r, hr⟩
      rcases hsy : synth tr.text with e | out
      · simp [ttsStep, hsy] at hr
      · exact ⟨out, rfl⟩
    · rintro ⟨out, hsy⟩
      refine ⟨{ samples := if pitch ≠ 0 then shiftFn out.1 out.2 else out.1,
                sampleRate := out.2, transcript := tr.text,
                timestamp := now }, ?_⟩
      simp [ttsStep, hsy]

theorem c7_witness :
    sttStep (fun _ _ => Except.error "transcription failure")
      { samples := [0], sampleRate := 16000, timestamp := 0 } =
      [SttEv.logError "transcription failure"] :=
  c7_worker_error_handling.2.1 (fun _ _ => Except.error "transcription failure")
    { samples := [0], sampleRate := 16000, timestamp := 0 }
    "transcription failure" rfl

/-! ## Claim C8 -/

/-- C8: toggling the pause coordinator from active to paused empties the
transcription queue, the synthesis queue and the playback pending queue,
stops capture and leaves the pause flag set; toggling back to active
restarts capture with the segmentation state machine back in IDLE with an
empty preroll ring and an empty utterance buffer. -/
theorem c8_toggle_pause (a : AppState α) (h : a.paused = false) :
    ((togglePause a).paused = true ∧
     (togglePause a).sttQueue = [] ∧
     (togglePause a).ttsQueue = [] ∧
     (togglePause a).playback.queue = [] ∧
     (togglePause a).capture.running = false) ∧
    ((togglePause (togglePause a)).paused = false ∧
     (togglePause (togglePause a)).capture.running = true ∧
     (togglePause (togglePause a)).capture.state = .idle ∧
     (togglePause (togglePause a)).capture.prebuffer = [] ∧
     (togglePause (togglePause a)).capture.utteranceBuffer = []) := by
  obtain ⟨p, sq, tq, pb, cap⟩ := a
  obtain rfl : p = false := h
  obtain ⟨cst, csf, csil, cpre, cub, ctb, csb, clt, crn⟩ := cap
  simp [togglePause, pbClearQueue, captureStop, captureStart]

/-- Application state used by the C8 witness: active, one pending item in
each stage queue and in the playback queue, capture running mid-utterance. -/
def appW : AppState ℕ :=
  { paused := false
    sttQueue := [{ samples := [0], sampleRate := 16000, timestamp := 0 }]
    ttsQueue := [{ text := "hi", samples := [0], sampleRate := 16000,
                   timestamp := 0 }]
    playback := { queue := [{ samples := [0], sampleRate := 24000,
                              transcript := "hi", timestamp := 0 }]
                  isPlaying := false
                  currentClip := none }
    capture := { state := .inSpeech
                 speechFrames := 2
                 silenceFrames := 1
                 prebuffer := [4]
                 utteranceBuffer := [3, 4]
                 tailBuffer := []
                 sampleBuffer := []
                 lastSpeechEndTime := 0
                 running := true } }

theorem c8_witness :
    ((togglePause appW).sttQueue = [] ∧
     (togglePause appW).playback.queue = [] ∧
     (togglePause appW).capture.running = false) ∧
    ((togglePause (togglePause appW)).capture.state = .idle ∧
     (togglePause (togglePause appW)).capture.utteranceBuffer = []) :=
  ⟨⟨(c8_toggle_pause appW rfl).1.2.1, (c8_toggle_pause appW rfl).1.2.2.2.1,
    (c8_toggle_pause appW rfl).1.2.2.2.2⟩,
   ⟨(c8_toggle_pause appW rfl).2.2.2.1, (c8_toggle_pause appW rfl).2.2.2.2.2⟩⟩

/-! ## Claim C4 (corrected) -/

/-- Estimator raising on every frame (the torch call in _vad_probability
failing). -/
def estFailW : ℕ → Except String ℚ := fun _ => .error "estimator failure"

/-- IDLE state with the speech counter at three, used to exhibit what a
failing frame does and does not change. -/
def sIdle3W : CaptureState ℕ :=
  { state := .idle
    speechFrames := 3
    silenceFrames := 0
    prebuffer := [6, 7, 8]
    utteranceBuffer := []
    tailBuffer := []
    sampleBuffer := []
    lastSpeechEndTime := 0
    running := true }

/-- C4 counterexample: _process_frame has no handler around the estimator
call, so on a failing frame the exception escapes to the caller (the third
component is some rather than none), refuting the claim that the error is
logged and not propagated; and the frame is not treated as not-speech
either: the speech counter stays at three instead of the reset to zero that
the IDLE not-speech path performs, and the frame is not pushed into the
preroll ring. -/
theorem c4_counterexample :
    (processFrameExn cfgW estFailW 0 sIdle3W 9).2.2 = some "estimator failure"
      ∧ (processFrameExn cfgW estFailW 0 sIdle3W 9).1.speechFrames = 3
      ∧ (processFrameExn cfgW estFailW 0 sIdle3W 9).1.prebuffer = [6, 7, 8] := by
  decide

/-- C4 amended: when the probability estimator raises on a frame, the
exception propagates out of _process_frame uncaught; however, because the
estimator call is the first statement of _process_frame, the failing frame
fires no notification and leaves every segmentation field (state, counters,
preroll ring, utterance buffer) exactly unchanged, so the state machine's
invariants are not corrupted. -/
theorem c4_estimator_error_propagates (cfg : VADConfig)
    (est : α → Except String ℚ) (t : ℚ) (s : CaptureState α) (f : α)
    (e : String) (h : est f = .error e) :
    processFrameExn cfg est t s f = (s, [], some e) := by
  simp [processFrameExn, h]

theorem c4_witness :
    processFrameExn cfgW estFailW 0 sIdle3W 9 =
      (sIdle3W, [], some "estimator failure") :=
  c4_estimator_error_propagates cfgW estFailW 0 sIdle3W 9
    "estimator failure" rfl

/-! ## Claim C5 (corrected) -/

/-- Probability trace of the spec's concrete scenario:
ten frames at 0.1, eight at 0.9, twelve at 0.1. -/
def probsC5 : List ℚ :=
  List.replicate 10 (mkRat 1 10) ++ List.replicate 8 (mkRat 9 10) ++
    List.replicate 12 (mkRat 1 10)

/-- Estimator of the C5 scenario: frame i (frames are their indices) has the
probability at position i of the trace. -/
def estC5 (i : ℕ) : ℚ := probsC5.getD i 0

/-- Configuration of the C5 scenario: start_threshold 0.5, end_threshold
0.35 (the constructor default, which the scenario leaves unspecified; any
value in (0.1, 0.9] gives the same run), min_speech_frames 4,
min_silence_frames 9, preroll ring capacity 7. -/
def cfgC5 : VADConfig :=
  { startThreshold := mkRat 1 2
    endThreshold := mkRat 7 20
    minSpeechFrames := 4
    minSilenceFrames := 9
    prebufferFrames := 7
    tailFramesNeeded := 4 }

/-- First n frames of the C5 scenario, frame i processed at clock i. -/
def traceC5 (n : ℕ) : List (ℕ × ℚ) :=
  (List.range n).map (fun i => (i, mkRat i 1))

/-- C5 counterexample: on the claimed trace and parameters (preroll ring
capacity 7, which is at least the 6 frames the claim allows), the full run
emits the segment spanning frames 7 through 26 with the speech-end at frame
26 — the identical event list is already produced by the 27-frame prefix
(frames 0..26), so nothing fires at frame 29 — and the emitted span differs
from the claimed span of frames 7 through 29. -/
theorem c5_counterexample :
    (runP cfgC5 estC5 (initState ℕ) (traceC5 30)).2 =
      [VADEvent.speechStart,
       VADEvent.segment (List.range' 7 20 1) (mkRat 26 1),
       VADEvent.speechEnd] ∧
    (runP cfgC5 estC5 (initState ℕ) (traceC5 27)).2 =
      [VADEvent.speechStart,
       VADEvent.segment (List.range' 7 20 1) (mkRat 26 1),
       VADEvent.speechEnd] ∧
    List.range' 7 20 1 ≠ List.range' 7 23 1 := by
  decide

/-- C5 amended: on the trace [0.1]*10 ++ [0.9]*8 ++ [0.1]*12 with
start_threshold 0.5, min_speech_frames 4, min_silence_frames 9 and a preroll
ring of exactly 7 frames, speech-start fires at frame index 13 (no event
through frame 12, the start present once frame 13 is processed), speech-end
fires at frame index 26 (the silence run begins at frame 18, so the counter
reaches 9 at frame 26; no further event exists through frame 25), and
exactly one Segment is emitted, spanning frames 7 through 26. -/
theorem c5_scenario_events :
    ((runP cfgC5 estC5 (initState ℕ) (traceC5 13)).2 = [] ∧
     (runP cfgC5 estC5 (initState ℕ) (traceC5 14)).2 =
       [VADEvent.speechStart]) ∧
    ((runP cfgC5 estC5 (initState ℕ) (traceC5 26)).2 =
       [VADEvent.speechStart] ∧
     (runP cfgC5 estC5 (initState ℕ) (traceC5 30)).2 =
       [VADEvent.speechStart,
        VADEvent.segment (List.range' 7 20 1) (mkRat 26 1),
        VADEvent.speechEnd]) := by
  decide

/-! ## Claim C9 -/

theorem runP_cons_fst (cfg : VADConfig) (est : α → ℚ) (s : CaptureState α)
    (p : α × ℚ) (rest : List (α × ℚ)) :
    (runP cfg est s (p :: rest)).1 =
      (runP cfg est (processFrame cfg est p.2 s p.1).1 rest).1 := rfl

theorem runP_cons_snd (cfg : VADConfig) (est : α → ℚ) (s : CaptureState α)
    (p : α × ℚ) (rest : List (α × ℚ)) :
    (runP cfg est s (p :: rest)).2 =
      (processFrame cfg est p.2 s p.1).2 ++
        (runP cfg est (processFrame cfg est p.2 s p.1).1 rest).2 := rfl

/-- One step preserves the invariant that the utterance buffer is empty
whenever the machine is IDLE. -/
theorem processFrame_idle_ub (cfg : VADConfig) (est : α → ℚ) (t : ℚ)
    (s : CaptureState α) (f : α)
    (hinv : s.state = .idle → s.utteranceBuffer = [])
    (h2 : (processFrame cfg est t s f).1.state = .idle) :
    (processFrame cfg est t s f).1.utteranceBuffer = [] := by
  obtain ⟨st, sf, sil, pre, ub, tb, sb, lt, rn⟩ := s
  cases st with
  | idle =>
      have hub : ub = [] := hinv rfl
      subst hub
      simp only [processFrame, processFrameCore] at h2 ⊢
      split_ifs at h2 ⊢ <;> simp_all
  | inSpeech =>
      simp only [processFrame, processFrameCore] at h2 ⊢
      split_ifs at h2 ⊢ <;> simp_all

theorem runP_idle_ub (cfg : VADConfig) (est : α → ℚ) :
    ∀ (fr : List (α × ℚ)) (s : CaptureState α),
      (s.state = .idle → s.utteranceBuffer = []) →
      (runP cfg est s fr).1.state = .idle →
      (runP cfg est s fr).1.utteranceBuffer = []
  | [], s, hinv => hinv
  | p :: rest, s, hinv => by
      rw [runP_cons_fst]
      exact runP_idle_ub cfg est rest (processFrame cfg est p.2 s p.1).1
        (processFrame_idle_ub cfg est p.2 s p.1 hinv)

/-- A segment event emitted by one step always carries at least one
frame. -/
theorem processFrame_segment_ne_nil (cfg : VADConfig) (est : α → ℚ) (t : ℚ)
    (s : CaptureState α) (f : α) (sg : List α) (ts : ℚ)
    (h : VADEvent.segment sg ts ∈ (processFrame cfg est t s f).2) :
    sg ≠ [] := by
  obtain ⟨st, sf, sil, pre, ub, tb, sb, lt, rn⟩ := s
  cases st <;> simp only [processFrame, processFrameCore] at h <;>
    split_ifs at h <;> simp_all

theorem runP_segment_ne_nil (cfg : VADConfig) (est : α → ℚ) :
    ∀ (fr : List (α × ℚ)) (s : CaptureState α) (sg : List α) (ts : ℚ),
      VADEvent.segment sg ts ∈ (runP cfg est s fr).2 → sg ≠ []
  | [], s, sg, ts, h => by simp at h
  | p :: rest, s, sg, ts, h => by
      rw [runP_cons_snd] at h
      rcases List.mem_append.mp h with h1 | h2
      · exact processFrame_segment_ne_nil cfg est p.2 s p.1 sg ts h1
      · exact runP_segment_ne_nil cfg est rest _ sg ts h2

/-- Projection of the event stream onto speech-start (true) and speech-end
(false) notifications. -/
def ssEvents : List (VADEvent α) → List Bool :=
  List.filterMap fun e =>
    match e with
    | VADEvent.speechStart => some true
    | VADEvent.speechEnd => some false
    | VADEvent.segment _ _ => none

/-- Which notification the machine may emit next: a speech-start while
IDLE, a speech-end while IN_SPEECH. -/
def expectStart : VADState → Bool
  | .idle => true
  | .inSpeech => false

/-- Strict alternation of a Boolean stream against an expected first
value. -/
def alternating : Bool → List Bool → Bool
  | _, [] => true
  | b, x :: rest => (x == b) && alternating (!b) rest

theorem ssEvents_append (l1 l2 : List (VADEvent α)) :
    ssEvents (l1 ++ l2) = ssEvents l1 ++ ssEvents l2 :=
  List.filterMap_append l1 l2 _

/-- One step either emits no notification and keeps its phase, or emits
exactly the expected notification and flips phase. -/
theorem processFrame_ss (cfg : VADConfig) (est : α → ℚ) (t : ℚ)
    (s : CaptureState α) (f : α) :
    (ssEvents (processFrame cfg est t s f).2 = [] ∧
      expectStart (processFrame cfg est t s f).1.state =
        expectStart s.state) ∨
    (ssEvents (processFrame cfg est t s f).2 = [expectStart s.state] ∧
      expectStart (processFrame cfg est t s f).1.state =
        !expectStart s.state) := by
  obtain ⟨st, sf, sil, pre, ub, tb, sb, lt, rn⟩ := s
  cases st <;> simp only [processFrame, processFrameCore] <;>
    split_ifs <;> simp [ssEvents, expectStart]

theorem runP_alternating (cfg : VADConfig) (est : α → ℚ) :
    ∀ (fr : List (α × ℚ)) (s : CaptureState α),
      alternating (expectStart s.state)
        (ssEvents (runP cfg est s fr).2) = true
  | [], s => by simp [ssEvents, alternating]
  | p :: rest, s => by
      rw [runP_cons_snd, ssEvents_append]
      rcases processFrame_ss cfg est p.2 s p.1 with ⟨h1, h2⟩ | ⟨h1, h2⟩
      · rw [h1, List.nil_append, ← h2]
        exact runP_alternating cfg est rest _
      · rw [h1]
        have hrec := runP_alternating cfg est rest
          (processFrame cfg est p.2 s p.1).1
        rw [h2] at hrec
        simpa [alternating] using hrec

/-- C9: across every frame sequence processed from the initial state, at
most one utterance is open at a time — the utterance buffer is non-empty
only while IN_SPEECH (first conjunct, for every trace, hence for every
reachable point), and the speech-start and speech-end notifications
strictly alternate beginning with a start, so a second speech-start cannot
occur before a speech-end (third conjunct); and no Segment is ever emitted
with an empty utterance buffer (second conjunct). -/
theorem c9_segmenter_invariants (cfg : VADConfig) (est : α → ℚ) :
    (∀ (fr : List (α × ℚ)),
      (runP cfg est (initState α) fr).1.state = .idle →
      (runP cfg est (initState α) fr).1.utteranceBuffer = []) ∧
    (∀ (fr : List (α × ℚ)) (sg : List α) (ts : ℚ),
      VADEvent.segment sg ts ∈ (runP cfg est (initState α) fr).2 →
      sg ≠ []) ∧
    (∀ (fr : List (α × ℚ)),
      alternating true (ssEvents (runP cfg est (initState α) fr).2) =
        true) := by
  refine ⟨?_, ?_, ?_⟩
  · intro fr
    exact runP_idle_ub cfg est fr (initState α) (fun _ => rfl)
  · intro fr sg ts h
    exact runP_segment_ne_nil cfg est fr (initState α) sg ts h
  · intro fr
    exact runP_alternating cfg est fr (initState α)

theorem c9_witness :
    (runP cfgW estHigh (initState ℕ) []).1.utteranceBuffer = [] ∧
    alternating true
      (ssEvents (runP cfgW estHigh (initState ℕ) [(0, 0), (1, 0)]).2) =
      true :=
  ⟨(c9_segmenter_invariants cfgW estHigh).1 [] rfl,
   (c9_segmenter_invariants cfgW estHigh).2.2 [(0, 0), (1, 0)]⟩

/-! ## Claim C10 -/

/-- Appending to a non-full or full ring of positive capacity always keeps
the appended element as the last one. -/
theorem ringAppend_concat (m : ℕ) (hm : 1 ≤ m) (q : List α) (x : α) :
    ∃ a, ringAppend m q x = a ++ [x] := by
  refine ⟨q.drop (q.length + 1 - m), ?_⟩
  unfold ringAppend
  rw [List.drop_append_of_le_length (by omega)]

/-- Invariant carried while IN_SPEECH: the silence counter is strictly
below min_silence_frames and the utterance buffer decomposes as some
prefix, then a frame at or above end_threshold, then the current silence
run — exactly silenceFrames trailing frames below end_threshold. -/
def TrailInv (cfg : VADConfig) (est : α → ℚ) (s : CaptureState α) : Prop :=
  s.state = .inSpeech →
    s.silenceFrames < cfg.minSilenceFrames ∧
    ∃ a g b, s.utteranceBuffer = a ++ g :: b ∧
      b.length = s.silenceFrames ∧
      (∀ f ∈ b, est f < cfg.endThreshold) ∧ cfg.endThreshold ≤ est g

theorem processFrame_trailInv (cfg : VADConfig) (est : α → ℚ) (t : ℚ)
    (s : CaptureState α) (f : α)
    (hend : cfg.endThreshold ≤ cfg.startThreshold)
    (hm : 1 ≤ cfg.prebufferFrames)
    (hsil : 1 ≤ cfg.minSilenceFrames)
    (hinv : TrailInv cfg est s) :
    TrailInv cfg est (processFrame cfg est t s f).1 := by
  obtain ⟨st, sf, sil, pre, ub, tb, sb, lt, rn⟩ := s
  unfold TrailInv at hinv ⊢
  cases st with
  | idle =>
      simp only [processFrame, processFrameCore]
      split_ifs with hp hk
      · dsimp only
        intro _
        obtain ⟨a, ha⟩ := ringAppend_concat cfg.prebufferFrames hm pre f
        exact ⟨by omega, a, f, [], by simpa using ha, rfl, by simp,
          le_trans hend hp⟩
      · dsimp only
        intro hcontra
        exact hcontra.elim
      · dsimp only
        intro hcontra
        exact hcontra.elim
  | inSpeech =>
      obtain ⟨hlt, a, g, b, hub, hlen, hb, hg⟩ := hinv rfl
      dsimp only at hub hlen hlt
      simp only [processFrame, processFrameCore]
      split_ifs with hp hk hemp
      · dsimp only
        intro hcontra
        exact hcontra.elim
      · dsimp only
        intro hcontra
        exact hcontra.elim
      · dsimp only
        intro _
        refine ⟨by omega, a, g, b ++ [f], ?_, by simp [hlen], ?_, hg⟩
        · rw [hub]; simp
        · intro x hx
          rcases List.mem_append.mp hx with hx1 | hx2
          · exact hb x hx1
          · rw [List.mem_singleton.mp hx2]; exact hp
      · dsimp only
        intro _
        exact ⟨by omega, ub, f, [], by simp, rfl, by simp, not_lt.mp hp⟩

/-- A segment emitted by one step from a state satisfying the invariant
ends with exactly min_silence_frames trailing sub-end_threshold frames,
preceded by a frame at or above end_threshold. -/
theorem processFrame_trail_segment (cfg : VADConfig) (est : α → ℚ) (t : ℚ)
    (s : CaptureState α) (f : α) (sg : List α) (ts : ℚ)
    (hinv : TrailInv cfg est s)
    (h : VADEvent.segment sg ts ∈ (processFrame cfg est t s f).2) :
    ∃ a g b, sg = a ++ g :: b ∧ b.length = cfg.minSilenceFrames ∧
      (∀ x ∈ b, est x < cfg.endThreshold) ∧ cfg.endThreshold ≤ est g := by
  obtain ⟨st, sf, sil, pre, ub, tb, sb, lt, rn⟩ := s
  cases st with
  | idle =>
      simp only [processFrame, processFrameCore] at h
      split_ifs at h <;> simp_all
  | inSpeech =>
      obtain ⟨hlt, a, g, b, hub, hlen, hb, hg⟩ := hinv rfl
      dsimp only at hub hlen hlt
      simp only [processFrame, processFrameCore] at h
      split_ifs at h with hp hk hemp
      · simp at h
      · simp only [List.singleton_append, List.mem_cons,
          List.mem_singleton] at h
        rcases h with h | h
        · injection h with h1 h2
          subst h1
          refine ⟨a, g, b ++ [f], ?_, ?_, ?_, hg⟩
          · rw [hub]; simp
          · simp only [List.length_append, List.length_singleton, hlen]
            omega
          · intro x hx
            rcases List.mem_append.mp hx with hx1 | hx2
            · exact hb x hx1
            · rw [List.mem_singleton.mp hx2]; exact hp
        · simp at h
      · simp at h
      · simp at h

theorem processFrame_tailBuffer (cfg : VADConfig) (est : α → ℚ) (t : ℚ)
    (s : CaptureState α) (f : α) :
    (processFrame cfg est t s f).1.tailBuffer = s.tailBuffer := by
  obtain ⟨st, sf, sil, pre, ub, tb, sb, lt, rn⟩ := s
  cases st <;> simp only [processFrame, processFrameCore] <;>
    split_ifs <;> rfl

theorem runP_tailBuffer (cfg : VADConfig) (est : α → ℚ) :
    ∀ (fr : List (α × ℚ)) (s : CaptureState α),
      (runP cfg est s fr).1.tailBuffer = s.tailBuffer
  | [], s => rfl
  | p :: rest, s => by
      rw [runP_cons_fst,
        runP_tailBuffer cfg est rest (processFrame cfg est p.2 s p.1).1,
        processFrame_tailBuffer]

theorem runP_trail (cfg : VADConfig) (est : α → ℚ)
    (hend : cfg.endThreshold ≤ cfg.startThreshold)
    (hm : 1 ≤ cfg.prebufferFrames) (hsil : 1 ≤ cfg.minSilenceFrames) :
    ∀ (fr : List (α × ℚ)) (s : CaptureState α), TrailInv cfg est s →
      TrailInv cfg est (runP cfg est s fr).1 ∧
      ∀ (sg : List α) (ts : ℚ),
        VADEvent.segment sg ts ∈ (runP cfg est s fr).2 →
        ∃ a g b, sg = a ++ g :: b ∧ b.length = cfg.minSilenceFrames ∧
          (∀ x ∈ b, est x < cfg.endThreshold) ∧ cfg.endThreshold ≤ est g
  | [], s, hinv => ⟨hinv, by simp⟩
  | p :: rest, s, hinv => by
      have hstep := processFrame_trailInv cfg est p.2 s p.1 hend hm hsil hinv
      have hrec := runP_trail cfg est hend hm hsil rest
        (processFrame cfg est p.2 s p.1).1 hstep
      refine ⟨by rw [runP_cons_fst]; exact hrec.1, ?_⟩
      intro sg ts h
      rw [runP_cons_snd] at h
      rcases List.mem_append.mp h with h1 | h2
      · exact processFrame_trail_segment cfg est p.2 s p.1 sg ts hinv h1
      · exact hrec.2 sg ts h2

/-- C10: provided end_threshold does not exceed start_threshold and the
preroll ring capacity and min_silence_frames are positive (all true of the
constructor defaults), every Segment emitted from the initial state ends
with exactly min_silence_frames trailing frames whose probability is below
end_threshold — the frame immediately before that run has probability at or
above end_threshold, so no further trailing frame is below it — because
each frame is appended to the utterance buffer before the silence check;
and no tail padding is ever appended: the tail buffer allocated at
construction is carried unchanged through every processed frame. -/
theorem c10_trailing_silence (cfg : VADConfig) (est : α → ℚ)
    (hend : cfg.endThreshold ≤ cfg.startThreshold)
    (hm : 1 ≤ cfg.prebufferFrames)
    (hsil : 1 ≤ cfg.minSilenceFrames) :
    (∀ (fr : List (α × ℚ)) (sg : List α) (ts : ℚ),
      VADEvent.segment sg ts ∈ (runP cfg est (initState α) fr).2 →
      ∃ a g b, sg = a ++ g :: b ∧ b.length = cfg.minSilenceFrames ∧
        (∀ x ∈ b, est x < cfg.endThreshold) ∧
        cfg.endThreshold ≤ est g) ∧
    (∀ (fr : List (α × ℚ)) (s : CaptureState α),
      (runP cfg est s fr).1.tailBuffer = s.tailBuffer) ∧
    (initState α).tailBuffer = [] := by
  refine ⟨?_, runP_tailBuffer cfg est, rfl⟩
  intro fr sg ts h
  exact (runP_trail cfg est hend hm hsil fr (initState α)
    (fun hcontra => absurd hcontra (by simp [initState]))).2 sg ts h

/-- Estimator of the C10 witness scenario: frames 0 and 1 at probability
0.9, later frames at 0.1. -/
def estTwoHigh : ℕ → ℚ := fun i => if i ≤ 1 then mkRat 9 10 else mkRat 1 10

theorem c10_witness :
    ∃ a g b, ([0, 1, 2, 3, 4] : List ℕ) = a ++ g :: b ∧
      b.length = cfgW.minSilenceFrames ∧
      (∀ x ∈ b, estTwoHigh x < cfgW.endThreshold) ∧
      cfgW.endThreshold ≤ estTwoHigh g :=
  (c10_trailing_silence cfgW estTwoHigh (by decide) (by decide)
      (by decide)).1
    ((List.range 5).map (fun i => (i, mkRat i 1)))
    [0, 1, 2, 3, 4] (mkRat 4 1) (by decide)

end SpeechPipeline
